import Mathlib

/-!
Shallow embedding of `src/hourly_report.py`, the 3-hour reconciliation
report generator, together with proofs of the frozen specification claims.

Rows of the unified corpus are modelled as records of the six projected
columns; all missing values are already replaced by the empty string, which
mirrors the `fillna("")` call performed by `merge_files` right after each
concatenation.  Pandas pivot tables with `aggfunc=count` over the
(non-null) `ENDTOENDID` column are modelled as exact row counts.  All
float computations are modelled at full IEEE-754 binary64 fidelity:
doubles are exact dyadic rationals, every arithmetic operation rounds its
exact result to 53 significant bits with ties to even, `"{0:.2f}"`
formatting is the correctly rounded two-decimal rendering of the exact
value of the double, `float(...)` parsing is correctly rounded decimal
conversion, and the Success mean of the Reconciler follows the pandas
nanmean path: NaN cells are replaced by zero, all cells (the appended
total row included) are summed with the numpy pairwise summation
algorithm, and the sum is divided by the count of non-NaN cells.
Pandas sorts pivot indexes and outer-merge keys;
the embedding sorts with an insertion sort, and no claim below depends on
the chosen order.
-/

/-- One record of the unified corpus: the six columns selected by
`filter_file` from a raw extract, in source order. -/
structure Row where
  ENDTOENDID : String
  DB_PARTIC_NAME : String
  CR_PARTIC_NAME : String
  TR_STATUS_NAME : String
  BANK_OP_CODE : String
  REJECT_MOTIVE_DESCRITION : String
deriving DecidableEq, Repr

/-- The status dictionary `STATUSES` of the source, as an association list
in source order. -/
def STATUSES : List (String × String) :=
  [("Declined", "Declined"),
   ("Rejected", "Rejected"),
   ("Returned", "Returned"),
   ("Posted", "Posted"),
   ("CR_PARTIC_NAME", "CR_PARTIC_NAME")]

/-- The sub-status dictionary `SUB_STATUSES` of the source, as an
association list in source order. -/
def SUB_STATUSES : List (String × String) :=
  [("Duplication", " Duplication"),
   ("No response from Beneficiary", " No Response"),
   ("Amount is invalid or missing", " Amount Invalid"),
   ("Already returned original SCT", " Already Returned"),
   ("Account number is invalid or missing", " Account Invalid"),
   ("Account currency is invalid or missing", " Currency Invalid"),
   ("Payment is a duplicate of another payment", " Duplicate Payment"),
   ("Reason has not been specified by end customer", " Reason Not Specified"),
   ("Creditor account number invalid or missing", " Creditor Account Invalid"),
   ("Specific transaction/message amount is greater than allowed maximum", " Amount Exceed"),
   ("Transaction forbidden on this type of account (formerly No Agreement)", " Transaction Forbidden"),
   ("Account specified is blocked, prohibiting posting of transactions against it", " Account Blocked"),
   ("Account number specified has been closed on the bank of accounts books", " Account Specified Closed"),
   ("Cancellation requested following technical problems resulting in an erroneous transaction", " Technical Problems"),
   ("Specification of the debtor’s name and/or address needed for regulatory requirements is insufficient or missing", " Missing Debtor Name Or Address"),
   ("Success", " Success"),
   ("Invalid value", " Invalid Value"),
   ("Lack of funds", " Lack of Funds"),
   ("Wrong rejection motive", " Wrong motive"),
   ("Invalid value date", " Invalid value date"),
   ("Payment is not found", " Payment not Found"),
   ("Document was rejected by timeout", " Timeout"),
   ("On-us dynamic QR code payment", " DQRC Payment"),
   ("Cancellation requested by the Debtor", " Cancelled by Debtor"),
   ("Partial return requested by customer", " Partial return by Customer"),
   ("Reason has not been specified by agent", " Reason not specified by Agent"),
   ("Return for original payment is already registered", " Return already Registered"),
   ("Original credit transfer never received", " Original credit transfer never received"),
   ("Amount of funds available to cover specified message amount is insufficient", " Amount Insufficient"),
   ("Transaction type not supported/authorized on this account", " Transaction not supported on this account"),
   ("Invalid value customer identification (such as CNIC, NTN, POC, etc.)", " Invalid Customer Identification"),
   ("Specification of the debtors account or unique identification needed for reasons of regulatory requirements is insufficient or missing", " Regulatory requirements are insufficient")]

/-- The six required columns of `filter_file`, in source order. -/
def REQUIRED_COLUMNS : List String :=
  ["ENDTOENDID", "DB_PARTIC_NAME", "CR_PARTIC_NAME", "TR_STATUS_NAME",
   "BANK_OP_CODE", "REJECT_MOTIVE_DESCRITION"]

/-- Split a character list on a separator character; mirrors the Python
`str.split` used (through `rsplit`) on reject motives.  The empty list
yields one empty component, like Python. -/
def splitOnChar (sep : Char) : List Char → List (List Char)
  | [] => [[]]
  | a :: rest =>
      let r := splitOnChar sep rest
      if a = sep then [] :: r
      else
        match r with
        | [] => [[a]]
        | h :: t => (a :: h) :: t

/-- Join character-list components with a dot, the inverse direction of
`splitOnChar`; used to model `".".join(parts[:-1])`, which is what
`rsplit(".", 1)[0]` computes when a dot is present. -/
def joinDots : List (List Char) → List Char
  | [] => []
  | [x] => x
  | x :: xs => x ++ Char.ofNat 46 :: joinDots xs

/-- Model of the Python expression `s.rsplit(".", 1)[0]`: drop the segment
after the last dot separator together with that dot; a string without a
dot is returned unchanged. -/
def rsplitDot (s : String) : String :=
  let parts := splitOnChar (Char.ofNat 46) s.data
  if parts.length ≤ 1 then s else String.mk (joinDots parts.dropLast)

/-- Model of the Python expression `s.replace(chr(39), "")`: remove every
ASCII apostrophe (codepoint 39) from the string. -/
def stripQuotes (s : String) : String :=
  String.mk (s.data.filter (fun c => c ≠ Char.ofNat 39))

/-- Nearest integer to `n / d` with ties rounded to the even neighbour;
the rounding mode used when Python formats a ratio with two decimals. -/
def rnd (n d : Nat) : Nat :=
  let q := n / d
  let r := n % d
  if d < 2 * r then q + 1
  else if 2 * r < d then q
  else if q % 2 = 0 then q else q + 1

/-- Two-digit zero-padded rendering of a fractional part below 100. -/
def pad2 (fp : Nat) : String :=
  if fp < 10 then "0" ++ Nat.repr fp else Nat.repr fp

/-- Render a quantity of hundredths as a decimal numeral with exactly two
decimal places, as `"{0:.2f}".format` does for the corresponding value. -/
def fmt2 (q : Nat) : String :=
  Nat.repr (q / 100) ++ "." ++ pad2 (q % 100)

/-- Bit length of a natural number, computed with a fuel argument so the
kernel can evaluate it. -/
def bitlenAux : Nat → Nat → Nat
  | 0, _ => 0
  | fuel + 1, n => if n = 0 then 0 else bitlenAux fuel (n / 2) + 1

/-- Bit length of a natural number: zero for zero, otherwise the position
of the highest set bit plus one. -/
def bitlen (n : Nat) : Nat := bitlenAux (n + 1) n

/-- An IEEE-754 binary64 value, represented exactly as the dyadic
rational `m * 2 ^ e`.  Every operation below returns a correctly rounded
result (round to nearest, ties to even, 53 significant bits), so the
representation produced is the exact value of the double the program
computes.  Only non-negative finite values occur in this program. -/
structure F64 where
  m : Nat
  e : Int
deriving DecidableEq, Repr

/-- The double zero. -/
def f64Zero : F64 := { m := 0, e := 0 }

/-- Floor of the base-two logarithm of the positive rational
`num / den`. -/
def floorLog2 (num den : Nat) : Int :=
  let e0 : Int := (bitlen num : Int) - (bitlen den : Int)
  if 0 ≤ e0 then (if den * 2 ^ e0.toNat ≤ num then e0 else e0 - 1)
  else (if den ≤ num * 2 ^ (-e0).toNat then e0 else e0 - 1)

/-- Correctly rounded conversion of the rational `num / den` to a
binary64 value: round to nearest with ties to even at 53 significant
bits, with the subnormal range rounding at the fixed scale `2 ^ -1074`.
This is the result of an IEEE double division of exact operands. -/
def roundF64 (num den : Nat) : F64 :=
  if num = 0 ∨ den = 0 then f64Zero
  else
    let E := floorLog2 num den
    if E < -1022 then { m := rnd (num * 2 ^ 1074) den, e := -1074 }
    else
      let s : Int := 52 - E
      let q := if 0 ≤ s then rnd (num * 2 ^ s.toNat) den else rnd num (den * 2 ^ (-s).toNat)
      if q = 2 ^ 53 then { m := 2 ^ 52, e := E - 51 } else { m := q, e := E - 52 }

/-- Correctly rounded binary64 value of the exact dyadic `M * 2 ^ e`. -/
def dyadicRound (M : Nat) (e : Int) : F64 :=
  if 0 ≤ e then roundF64 (M * 2 ^ e.toNat) 1 else roundF64 M (2 ^ (-e).toNat)

/-- IEEE double addition: the exact sum of the two dyadic values,
correctly rounded. -/
def f64Add (x y : F64) : F64 :=
  let e := min x.e y.e
  dyadicRound (x.m * 2 ^ (x.e - e).toNat + y.m * 2 ^ (y.e - e).toNat) e

/-- IEEE double multiplication by an exact natural constant (here 100):
the exact product, correctly rounded. -/
def f64MulNat (x : F64) (k : Nat) : F64 := dyadicRound (x.m * k) x.e

/-- IEEE double division by an exact natural count: the exact quotient,
correctly rounded. -/
def f64DivNat (x : F64) (n : Nat) : F64 :=
  if 0 ≤ x.e then roundF64 (x.m * 2 ^ x.e.toNat) n
  else roundF64 x.m (n * 2 ^ (-x.e).toNat)

/-- The value of a double in hundredths, rounded half to even: the digits
`"{0:.2f}"` produces, since CPython formats the exact value of the double
with correct rounding. -/
def f64Hundredths (x : F64) : Nat :=
  if 0 ≤ x.e then 100 * x.m * 2 ^ x.e.toNat
  else rnd (100 * x.m) (2 ^ (-x.e).toNat)

/-- Hundredths of a percent printed for the ratio of two counts: the
float division `num / den`, the float multiplication by 100, and the
two-decimal formatting, each step at binary64 fidelity. -/
def pctHundredths (num den : Nat) : Nat :=
  f64Hundredths (f64MulNat (roundF64 num den) 100)

/-- Model of `"{0:.2f}%".format((num / den) * 100)` from the Success
computation, at binary64 fidelity.  A zero denominator gives the float
`nan`, which formats as the literal text `nan%`. -/
def formatPct (num den : Nat) : String :=
  if den = 0 then "nan%" else fmt2 (pctHundredths num den) ++ "%"

/-- Numeric value of a decimal digit character, if it is one. -/
def digitVal (c : Char) : Option Nat :=
  if c.isDigit then some (c.toNat - 48) else none

/-- Accumulating decimal parse of a character list; fails on the first
non-digit, as `float` conversion fails on non-numeric text. -/
def parseNatAux : List Char → Nat → Option Nat
  | [], acc => some acc
  | c :: cs, acc =>
      match digitVal c with
      | some d => parseNatAux cs (acc * 10 + d)
      | none => none

/-- Parse a non-empty all-digit character list as a natural number. -/
def parseNatChars (l : List Char) : Option Nat :=
  if l = [] then none else parseNatAux l 0

/-- Model of the Reconciler parse `float(s.replace(chr(37), ""))` on a
Success cell, returning the binary64 value `float` produces: every
percent sign (codepoint 37) is removed and the residual decimal text is
converted with correct rounding; text such as `nan` converts to a
non-numeric float and is treated as absent, exactly as the mean skips
NaN entries. -/
def parsePct (s : String) : Option F64 :=
  let t := s.data.filter (fun c => c ≠ Char.ofNat 37)
  match splitOnChar (Char.ofNat 46) t with
  | [ip] => (parseNatChars ip).map (fun a => roundF64 a 1)
  | [ip, fp] =>
      match parseNatChars ip, parseNatChars fp with
      | some a, some b => if fp.length = 2 then some (roundF64 (a * 100 + b) 100) else none
      | _, _ => none
  | _ => none

/-- Sequential double summation starting from zero: the numpy pairwise
summation base case for fewer than eight elements. -/
def seqSum (l : List F64) : F64 := l.foldl f64Add f64Zero

/-- The unrolled block loop of numpy pairwise summation: fold successive
groups of eight elements into the eight partial accumulators. -/
def addBlocksAux : Nat → List F64 → List F64 → List F64
  | 0, _, r => r
  | fuel + 1, l, r =>
      if l.isEmpty then r
      else addBlocksAux fuel (l.drop 8) (List.zipWith f64Add r (l.take 8))

/-- The final combination of the eight partial accumulators, in the
association order of the numpy source. -/
def combine8 : List F64 → F64
  | [s0, s1, s2, s3, s4, s5, s6, s7] =>
      f64Add (f64Add (f64Add s0 s1) (f64Add s2 s3)) (f64Add (f64Add s4 s5) (f64Add s6 s7))
  | _ => f64Zero

/-- Numpy pairwise summation of a block of at most 128 elements: seed the
eight accumulators with the first eight elements, fold the remaining full
groups of eight, combine, then add the tail sequentially. -/
def block8 (l : List F64) : F64 :=
  let n := l.length
  let nb := n - n % 8
  let r := addBlocksAux n ((l.take nb).drop 8) (l.take 8)
  (l.drop nb).foldl f64Add (combine8 r)

/-- Numpy pairwise summation: sequential under eight elements, the
unrolled block up to 128, and otherwise a recursive split at half the
length rounded down to a multiple of eight.  The fuel argument keeps the
recursion structural; the length is always sufficient. -/
def pairwiseSumAux : Nat → List F64 → F64
  | 0, l => seqSum l
  | fuel + 1, l =>
      let n := l.length
      if n < 8 then seqSum l
      else if n ≤ 128 then block8 l
      else
        let n2 := n / 2 - (n / 2) % 8
        f64Add (pairwiseSumAux fuel (l.take n2)) (pairwiseSumAux fuel (l.drop n2))

/-- Numpy pairwise summation of a list of doubles. -/
def pairwiseSum (l : List F64) : F64 := pairwiseSumAux l.length l

/-- Model of the pandas nanmean of the Success column followed by
`"{:.2f}%".format`: NaN cells (here `none`) are replaced by the double
zero, every cell is summed with numpy pairwise summation, the sum is
divided by the count of non-NaN cells, and the exact value of the
resulting double is rendered with two decimals and a percent sign; with
no parsable cell the mean is NaN and formats as `nan%`. -/
def nanmeanFmt (l : List (Option F64)) : String :=
  let n := (l.filterMap id).length
  if n = 0 then "nan%"
  else fmt2 (f64Hundredths (f64DivNat (pairwiseSum (l.map (fun o => o.getD f64Zero))) n)) ++ "%"

/-- Insertion step of the insertion sort used to model the sorted order
pandas gives to pivot indexes and outer-merge keys. -/
def insertLe {α : Type} (le : α → α → Bool) (a : α) : List α → List α
  | [] => [a]
  | b :: l => if le a b then a :: b :: l else b :: insertLe le a l

/-- Insertion sort by a boolean comparator. -/
def sortLe {α : Type} (le : α → α → Bool) : List α → List α
  | [] => []
  | a :: l => insertLe le a (sortLe le l)

/-- Lexicographic strict order on character lists by code point, the
order pandas uses on string keys. -/
def charListLt : List Char → List Char → Bool
  | [], [] => false
  | [], _ :: _ => true
  | _ :: _, [] => false
  | a :: as, b :: bs =>
      if a.toNat < b.toNat then true
      else if b.toNat < a.toNat then false
      else charListLt as bs

/-- Comparator for strings, matching the lexicographic order pandas uses
on string keys. -/
def strLe (a b : String) : Bool := !(charListLt b.data a.data)

/-- Comparator for (status, reject motive) pairs, lexicographic. -/
def pairLe (a b : String × String) : Bool :=
  if a.1 = b.1 then strLe a.2 b.2 else charListLt a.1.data b.1.data

/-- Sorted list of the distinct values of a string-valued column. -/
def sortedKeys (l : List String) : List String := sortLe strLe l.dedup

/-- One raw extract file: a header of column names and a list of rows,
each a list of cell texts positionally aligned with the header. -/
structure RawTable where
  header : List String
  rows : List (List String)
deriving DecidableEq, Repr

/-- Error raised by the Record Filter: the pandas `.loc` KeyError listing
the requested column labels that are absent from the frame.  The error
carries no file name, because `filter_file` raises it from the projection
expression, which sees only the already-loaded frame. -/
inductive FilterError where
  | missingColumns : List String → FilterError
deriving DecidableEq, Repr

/-- Value of the named column in one raw row; absent cells (a short row,
or an unknown column) read as the empty string, mirroring the downstream
`fillna("")`. -/
def cellVal (t : RawTable) (cells : List String) (c : String) : String :=
  match t.header.findIdx? (fun h => h = c) with
  | some i => cells.getD i ""
  | none => ""

/-- Projection of one raw row to the six required columns. -/
def mkRow (t : RawTable) (cells : List String) : Row :=
  { ENDTOENDID := cellVal t cells "ENDTOENDID"
    DB_PARTIC_NAME := cellVal t cells "DB_PARTIC_NAME"
    CR_PARTIC_NAME := cellVal t cells "CR_PARTIC_NAME"
    TR_STATUS_NAME := cellVal t cells "TR_STATUS_NAME"
    BANK_OP_CODE := cellVal t cells "BANK_OP_CODE"
    REJECT_MOTIVE_DESCRITION := cellVal t cells "REJECT_MOTIVE_DESCRITION" }

/-- Required columns absent from a raw table, in required order; the
labels the pandas `.loc` KeyError reports. -/
def missingOf (t : RawTable) : List String :=
  REQUIRED_COLUMNS.filter (fun c => !(t.header.contains c))

/-- Embedding of `filter_file`: project the raw table to the six required
columns, then drop every row whose `BANK_OP_CODE` is `CSDC` or `PMCT`.
A raw table lacking required columns fails with the KeyError listing
exactly the missing labels; the file name plays no part in the error. -/
def filter_file (fname : String) (t : RawTable) : Except FilterError (List Row) :=
  let missing := missingOf t
  if missing.isEmpty then
    .ok (((t.rows.map (mkRow t)).filter
      (fun r => r.BANK_OP_CODE ≠ "CSDC" ∧ r.BANK_OP_CODE ≠ "PMCT")))
  else .error (.missingColumns missing)

/-- Embedding of `merge_files`: apply `filter_file` to each named file in
discovery order and concatenate the results; the first failing file aborts
the whole run, as the uncaught Python exception does. -/
def merge_files : List (String × RawTable) → Except FilterError (List Row)
  | [] => .ok []
  | (fname, t) :: rest =>
      match filter_file fname t with
      | .error e => .error e
      | .ok rows =>
          match merge_files rest with
          | .error e => .error e
          | .ok others => .ok (rows ++ others)

/-- Error raised by an aggregation pass: the pandas KeyError from
selecting or popping a column that does not exist, or the failure that
follows when `pop` meets duplicated column labels. -/
inductive AggError where
  | missingColumn : String → AggError
  | duplicateColumn : String → AggError
deriving DecidableEq, Repr

/-- Count of corpus rows with the given debtor participant and status
`Posted`; the value the debtor pivot places in the `Posted` cell of that
participant after `fillna(0)` and integer coercion. -/
def debPostedCount (corpus : List Row) (p : String) : Nat :=
  (corpus.filter (fun r => r.DB_PARTIC_NAME = p ∧ r.TR_STATUS_NAME = "Posted")).length

/-- Sorted distinct statuses of the corpus: the columns of the debtor
pivot. -/
def debtorStatuses (corpus : List Row) : List String :=
  sortedKeys (corpus.map (·.TR_STATUS_NAME))

/-- Sorted distinct debtor participants of the corpus: the index of the
debtor pivot. -/
def debtorParts (corpus : List Row) : List String :=
  sortedKeys (corpus.map (·.DB_PARTIC_NAME))

/-- Embedding of `extract_debitor_details`: pivot the corpus by debtor
participant against status, keep only the participant and `Posted`
columns, fill missing counts with zero and coerce to integers.  When no
corpus row has status `Posted` the pivot has no `Posted` column and the
selection raises the missing-column KeyError.  The output pairs each
participant (renamed column `PARTICIPANT_NAME`) with its `Sent Posted`
count. -/
def extract_debitor_details (corpus : List Row) : Except AggError (List (String × Nat)) :=
  if "Posted" ∈ debtorStatuses corpus then
    .ok ((debtorParts corpus).map (fun p => (p, debPostedCount corpus p)))
  else .error (.missingColumn "Posted")

/-- Sorted distinct (status, reject motive) pairs of the corpus: the
combination columns of the creditor pivot. -/
def creditorCombos (corpus : List Row) : List (String × String) :=
  sortLe pairLe ((corpus.map (fun r => (r.TR_STATUS_NAME, r.REJECT_MOTIVE_DESCRITION))).dedup)

/-- Embedding of the column renaming loop of `extract_creditor_details`:
start from an empty name, append the status dictionary entry when the
status is a key, then append the sub-status dictionary entry of the
reject motive after dropping the segment after its last dot and removing
apostrophes, when that residual is a key. -/
def deriveName (c : String × String) : String :=
  let t0 := ""
  let t1 := if (STATUSES.lookup c.1).isSome then t0 ++ (STATUSES.lookup c.1).getD "" else t0
  let sub := stripQuotes (rsplitDot c.2)
  let t2 := if (SUB_STATUSES.lookup sub).isSome then t1 ++ (SUB_STATUSES.lookup sub).getD "" else t1
  t2

/-- Derived names of the creditor pivot combination columns, in column
order. -/
def creditorNames (corpus : List Row) : List String :=
  (creditorCombos corpus).map deriveName

/-- Sorted distinct creditor participants of the corpus: the index of the
creditor pivot. -/
def creditorParts (corpus : List Row) : List String :=
  sortedKeys (corpus.map (·.CR_PARTIC_NAME))

/-- Count of corpus rows with the given creditor participant, status and
reject motive; the creditor pivot cell after `fillna(0)`. -/
def comboCount (corpus : List Row) (p : String) (c : String × String) : Nat :=
  (corpus.filter (fun r =>
    r.CR_PARTIC_NAME = p ∧ r.TR_STATUS_NAME = c.1 ∧ r.REJECT_MOTIVE_DESCRITION = c.2)).length

/-- Position of the unique column named `Posted`, popped and reinserted
right after the participant column. -/
def postedIdx (corpus : List Row) : Nat :=
  (creditorNames corpus).indexOf "Posted"

/-- One row of the creditor aggregate: the participant (renamed column
`PARTICIPANT_NAME`), the popped `Posted` count (renamed column
`Received Posted`), the remaining combination-column counts in column
order, the row-wise `Grand Total`, and the formatted `Success` cell. -/
structure CredRow where
  participant : String
  received : Nat
  counts : List Nat
  grandTotal : Nat
  success : String
deriving DecidableEq, Repr

/-- The creditor aggregate: names of the combination-count columns that
remain after the `Posted` pop, and one row per creditor participant. -/
structure CredTable where
  colNames : List String
  rows : List CredRow
deriving DecidableEq, Repr

/-- Creditor aggregate row of one participant: combination counts in
column order, with the `Posted` column popped to the front, the grand
total summed over every numeric column, and the Success percentage. -/
def mkCredRow (corpus : List Row) (p : String) : CredRow :=
  let cnts := (creditorCombos corpus).map (comboCount corpus p)
  let i := postedIdx corpus
  let posted := cnts.getD i 0
  let rest := cnts.eraseIdx i
  let gt := posted + rest.sum
  { participant := p, received := posted, counts := rest, grandTotal := gt,
    success := formatPct posted gt }

/-- Embedding of `extract_creditor_details`: pivot by creditor participant
against (status, reject motive), rename the combination columns with
`deriveName`, pop the column named `Posted` (a KeyError when it does not
exist, a failure on `pop` when the name is duplicated), reinsert it at
position one, add the row-wise `Grand Total` over all numeric columns and
the formatted `Success` ratio. -/
def extract_creditor_details (corpus : List Row) : Except AggError CredTable :=
  if (creditorNames corpus).count "Posted" = 0 then .error (.missingColumn "Posted")
  else if 1 < (creditorNames corpus).count "Posted" then .error (.duplicateColumn "Posted")
  else .ok { colNames := (creditorNames corpus).eraseIdx (postedIdx corpus),
             rows := (creditorParts corpus).map (mkCredRow corpus) }

/-- One row of the outer merge of the two aggregates, after `fillna(0)`:
every numeric cell is a plain count (zero when the participant is absent
from that side) and the Success cell is the creditor string when present,
or the numeric zero fill, modelled as `none`, when the participant has no
creditor row. -/
structure MRow where
  participant : String
  sent : Nat
  received : Nat
  counts : List Nat
  grandTotal : Nat
  success : Option String
deriving DecidableEq, Repr

/-- One displayed row of the reconciled report, after the step that turns
every cell equal to zero into a missing value: numeric cells become
`none` exactly when they are zero. -/
structure ReportRow where
  participant : String
  sent : Option Nat
  received : Option Nat
  counts : List (Option Nat)
  grandTotal : Option Nat
  success : Option String
deriving DecidableEq, Repr

/-- The reconciled report: the per-participant rows and the synthetic
`GRAND TOTAL` row. -/
structure Report where
  rows : List ReportRow
  total : ReportRow
deriving DecidableEq, Repr

/-- Zero-to-missing display transform of one numeric cell. -/
def opt0 (n : Nat) : Option Nat := if n = 0 then none else some n

/-- Sorted union of participants of both aggregates: the outer-merge
keys. -/
def mergeKeys (deb : List (String × Nat)) (cred : List CredRow) : List String :=
  sortedKeys (deb.map Prod.fst ++ cred.map (·.participant))

/-- Merged row of one participant: debtor-side `Sent Posted` via lookup
with zero fill, creditor-side cells from the matching creditor row or
zero fills (`ncols` zero count columns) when absent. -/
def mkMerged (deb : List (String × Nat)) (ncols : Nat) (cred : List CredRow)
    (p : String) : MRow :=
  match cred.find? (fun c => c.participant = p) with
  | some c =>
      { participant := p, sent := (deb.lookup p).getD 0, received := c.received,
        counts := c.counts, grandTotal := c.grandTotal, success := some c.success }
  | none =>
      { participant := p, sent := (deb.lookup p).getD 0, received := 0,
        counts := List.replicate ncols 0, grandTotal := 0, success := none }

/-- Zero-to-missing display transform of one merged row; the Success cell
keeps its string when present and the numeric zero fill becomes missing. -/
def displayRow (m : MRow) : ReportRow :=
  { participant := m.participant, sent := opt0 m.sent, received := opt0 m.received,
    counts := m.counts.map opt0, grandTotal := opt0 m.grandTotal, success := m.success }

/-- Embedding of `post_processing`: outer-merge the two aggregates on
`PARTICIPANT_NAME` with zero fill, append a total row holding the
column-wise sums of the numeric columns, replace every zero cell of the
whole table by a missing value, rename the total row to `GRAND TOTAL`,
and overwrite its Success cell with the formatted nanmean of the parsed
Success column, whose trailing entry is the NaN Success cell of the
appended total row itself. -/
def post_processing (deb : List (String × Nat)) (ncols : Nat) (cred : List CredRow) :
    Report :=
  let merged := (mergeKeys deb cred).map (mkMerged deb ncols cred)
  let sumSent := (merged.map (·.sent)).sum
  let sumRecv := (merged.map (·.received)).sum
  let sumGT := (merged.map (·.grandTotal)).sum
  let sumCols := (List.range ncols).map (fun j => (merged.map (fun m => m.counts.getD j 0)).sum)
  let svals := merged.map (fun m => m.success.bind parsePct) ++ [none]
  { rows := merged.map displayRow,
    total := { participant := "GRAND TOTAL", sent := opt0 sumSent,
               received := opt0 sumRecv, counts := sumCols.map opt0,
               grandTotal := opt0 sumGT, success := some (nanmeanFmt svals) } }

/-- The reporting pipeline on a unified corpus: debtor aggregate, creditor
aggregate, then reconciliation; the first failing stage aborts the run. -/
def pipeline (corpus : List Row) : Except AggError Report :=
  match extract_debitor_details corpus with
  | .error e => .error e
  | .ok deb =>
      match extract_creditor_details corpus with
      | .error e => .error e
      | .ok cred => .ok (post_processing deb cred.colNames.length cred.rows)

/-- Spec-side column name of one combination column, written as the claim
states it: the status dictionary label (or nothing) followed by the
sub-status dictionary label of the trimmed reject motive (or nothing). -/
def specColumnName (s m : String) : String :=
  ((STATUSES.lookup s).getD "") ++ ((SUB_STATUSES.lookup (stripQuotes (rsplitDot m))).getD "")

/-- Concrete corpus row: a posted transaction. -/
def wRowPosted : Row :=
  { ENDTOENDID := "e1", DB_PARTIC_NAME := "DebA", CR_PARTIC_NAME := "CredB",
    TR_STATUS_NAME := "Posted", BANK_OP_CODE := "CTWA", REJECT_MOTIVE_DESCRITION := "" }

/-- Concrete corpus row: a declined transaction with a qualified reject
motive. -/
def wRowDeclined : Row :=
  { ENDTOENDID := "e2", DB_PARTIC_NAME := "DebA", CR_PARTIC_NAME := "CredB",
    TR_STATUS_NAME := "Declined", BANK_OP_CODE := "CTAA",
    REJECT_MOTIVE_DESCRITION := "Lack of funds.X" }

/-- Concrete corpus row with no posted status, for the missing-column
scenarios. -/
def wRowNoPost : Row :=
  { ENDTOENDID := "e3", DB_PARTIC_NAME := "DebC", CR_PARTIC_NAME := "CredD",
    TR_STATUS_NAME := "Declined", BANK_OP_CODE := "CTWA", REJECT_MOTIVE_DESCRITION := "" }

/-- Concrete two-row unified corpus used by the witnesses. -/
def wCorpus : List Row := [wRowPosted, wRowDeclined]

/-- Concrete raw extract with the full schema, one regular row and one row
with the excluded operation code `CSDC`. -/
def wTable : RawTable :=
  { header := REQUIRED_COLUMNS,
    rows := [["e1", "DebA", "CredB", "Posted", "CTWA", ""],
             ["e9", "DebX", "CredY", "Posted", "CSDC", ""]] }

/-- Concrete raw extract lacking the `BANK_OP_CODE` column. -/
def badTable : RawTable :=
  { header := ["ENDTOENDID", "DB_PARTIC_NAME", "CR_PARTIC_NAME", "TR_STATUS_NAME",
               "REJECT_MOTIVE_DESCRITION"],
    rows := [["e1", "DebA", "CredB", "Posted", ""]] }

/-- Concrete discovered file list. -/
def wFiles : List (String × RawTable) := [("extract1.xlsx", wTable)]

/-- Corpus produced by `merge_files` on the concrete file list. -/
def wMerged : List Row :=
  match merge_files wFiles with
  | .ok c => c
  | .error _ => []

/-- Debtor aggregate of the concrete corpus. -/
def wDeb : List (String × Nat) :=
  match extract_debitor_details wCorpus with
  | .ok d => d
  | .error _ => []

/-- Creditor aggregate of the concrete corpus. -/
def wCred : CredTable :=
  match extract_creditor_details wCorpus with
  | .ok c => c
  | .error _ => { colNames := [], rows := [] }

/-- Reconciled report of the concrete corpus. -/
def wReport : Report :=
  match pipeline wCorpus with
  | .ok r => r
  | .error _ =>
      { rows := [],
        total := { participant := "", sent := none, received := none, counts := [],
                   grandTotal := none, success := none } }

/-- The creditor aggregate row of the concrete corpus. -/
def wCredRow : CredRow :=
  { participant := "CredB", received := 1, counts := [1], grandTotal := 2,
    success := "50.00%" }

/-- Inserting into a list permutes consing onto it. -/
theorem insertLe_perm {α : Type} (le : α → α → Bool) (a : α) :
    ∀ l : List α, (insertLe le a l).Perm (a :: l) := by
  intro l
  induction l with
  | nil => simp [insertLe]
  | cons b t ih =>
    simp only [insertLe]
    split
    · exact List.Perm.refl _
    · exact (ih.cons b).trans (List.Perm.swap a b t)

/-- The insertion sort permutes its input. -/
theorem sortLe_perm {α : Type} (le : α → α → Bool) :
    ∀ l : List α, (sortLe le l).Perm l := by
  intro l
  induction l with
  | nil => exact List.Perm.refl _
  | cons a t ih => exact (insertLe_perm le a (sortLe le t)).trans (ih.cons a)

/-- Membership is unchanged by the insertion sort. -/
theorem mem_sortLe {α : Type} {le : α → α → Bool} {l : List α} {x : α} :
    x ∈ sortLe le l ↔ x ∈ l :=
  (sortLe_perm le l).mem_iff

/-- Distinctness is preserved by the insertion sort. -/
theorem nodup_sortLe {α : Type} {le : α → α → Bool} {l : List α} (h : l.Nodup) :
    (sortLe le l).Nodup :=
  ((sortLe_perm le l).nodup_iff).mpr h

/-- Membership in the sorted distinct keys of a column. -/
theorem mem_sortedKeys {l : List String} {x : String} : x ∈ sortedKeys l ↔ x ∈ l := by
  unfold sortedKeys
  rw [mem_sortLe, List.mem_dedup]

/-- The sorted distinct keys of a column are distinct. -/
theorem nodup_sortedKeys (l : List String) : (sortedKeys l).Nodup :=
  nodup_sortLe (List.nodup_dedup l)

/-- Lookup in an association list built by pairing each key with a
computed value returns that computed value. -/
theorem lookup_map_self {β : Type} (f : String → β) {p : String} :
    ∀ {l : List String}, p ∈ l →
      (l.map (fun q => (q, f q))).lookup p = some (f p) := by
  intro l
  induction l with
  | nil => intro hp; cases hp
  | cons q t ih =>
    intro hp
    by_cases h : p = q
    · subst h
      simp [List.lookup]
    · rcases List.mem_cons.mp hp with rfl | hp
      · exact absurd rfl h
      · have hb : (p == q) = false := beq_false_of_ne h
        simpa [List.lookup, hb] using ih hp

/-- A successful lookup pairs the key with an entry of the list. -/
theorem mem_of_lookup_eq_some {α β : Type} [BEq α] [LawfulBEq α]
    {l : List (α × β)} {k : α} {v : β} (h : l.lookup k = some v) : (k, v) ∈ l := by
  induction l with
  | nil => simp [List.lookup] at h
  | cons p t ih =>
    rcases p with ⟨a, b⟩
    by_cases hk : k = a
    · subst hk
      simp [List.lookup] at h
      simp [h]
    · have hne : (k == a) = false := beq_false_of_ne hk
      simp [List.lookup, hne] at h
      exact List.mem_cons_of_mem _ (ih h)

/-- Erasing an index commutes with mapping. -/
theorem eraseIdx_map {α β : Type} (f : α → β) :
    ∀ (l : List α) (i : Nat), (l.map f).eraseIdx i = (l.eraseIdx i).map f := by
  intro l
  induction l with
  | nil => intro i; simp
  | cons a t ih =>
    intro i
    cases i with
    | zero => simp [List.eraseIdx]
    | succ j => simp [List.eraseIdx, ih]

/-- The element at a valid index plus the sum of the rest is the sum. -/
theorem getD_add_eraseIdx_sum :
    ∀ (l : List Nat) (i : Nat), i < l.length → l.getD i 0 + (l.eraseIdx i).sum = l.sum := by
  intro l
  induction l with
  | nil => intro i hi; simp at hi
  | cons a t ih =>
    intro i hi
    cases i with
    | zero => simp [List.eraseIdx]
    | succ j =>
      have hj : j < t.length := by simpa using hi
      have := ih j hj
      simp only [List.eraseIdx, List.getD_cons_succ, List.sum_cons]
      omega

/-- Finding a participant among creditor rows built per participant
returns the row built for it. -/
theorem find?_mkCredRow (corpus : List Row) {p : String} :
    ∀ {l : List String}, p ∈ l →
      ((l.map (mkCredRow corpus)).find? (fun c => c.participant = p)) =
        some (mkCredRow corpus p) := by
  intro l
  induction l with
  | nil => intro hp; cases hp
  | cons q t ih =>
    intro hp
    by_cases h : q = p
    · subst h
      simp [List.find?, mkCredRow]
    · have hb : decide ((mkCredRow corpus q).participant = p) = false := by
        simp [mkCredRow, h]
      rcases List.mem_cons.mp hp with rfl | hp
      · exact absurd rfl h
      · simpa [List.find?, hb] using ih hp

/-- The zero display transform keeps the numeric value readable with a
zero default. -/
@[simp] theorem getD_opt0 (n : Nat) : (opt0 n).getD 0 = n := by
  unfold opt0
  split <;> simp [*]

/-- The zero display transform of a positive value is that value. -/
theorem opt0_pos {n : Nat} (h : 1 ≤ n) : opt0 n = some n := by
  unfold opt0
  rw [if_neg (by omega)]

/-- Reading a display-transformed count column with defaults recovers the
underlying count with a zero default. -/
theorem getD_map_opt0 (l : List Nat) (j : Nat) :
    ((l.map opt0).getD j none).getD 0 = l.getD j 0 := by
  by_cases hj : j < l.length
  · rw [List.getD_eq_getElem l 0 hj,
      List.getD_eq_getElem (l.map opt0) none (by simpa using hj)]
    simp
  · have h1 : l.length ≤ j := by omega
    have h2 : (l.map opt0).length ≤ j := by simpa using h1
    rw [List.getD_eq_default _ _ h1, List.getD_eq_default _ _ h2]
    rfl

/-- The debtor-side cell of a merged row is the zero-filled lookup. -/
theorem mkMerged_sent (deb : List (String × Nat)) (ncols : Nat) (cred : List CredRow)
    (p : String) : (mkMerged deb ncols cred p).sent = (deb.lookup p).getD 0 := by
  unfold mkMerged
  split <;> rfl

/-- Merged row of a participant present on the creditor side. -/
theorem mkMerged_of_credPart (deb : List (String × Nat)) (ncols : Nat)
    (corpus : List Row) {parts : List String} {p : String} (hp : p ∈ parts) :
    mkMerged deb ncols (parts.map (mkCredRow corpus)) p =
      { participant := p, sent := (deb.lookup p).getD 0,
        received := (mkCredRow corpus p).received,
        counts := (mkCredRow corpus p).counts,
        grandTotal := (mkCredRow corpus p).grandTotal,
        success := some (mkCredRow corpus p).success } := by
  unfold mkMerged
  rw [find?_mkCredRow corpus hp]

/-- Every sub-status label starts with a space, so it contains one. -/
theorem sub_status_value_has_space :
    ∀ pr ∈ SUB_STATUSES, (Char.ofNat 32) ∈ pr.2.data := by
  decide

/-- The only status key whose label is `Posted` is `Posted` itself. -/
theorem status_value_posted : ∀ pr ∈ STATUSES, pr.2 = "Posted" → pr.1 = "Posted" := by
  decide

/-- The word `Posted` contains no space. -/
theorem posted_no_space : (Char.ofNat 32) ∉ ("Posted").data := by
  decide

/-- The renaming loop concatenates the two optional dictionary labels. -/
theorem deriveName_eq (c : String × String) :
    deriveName c =
      ((STATUSES.lookup c.1).getD "") ++
        ((SUB_STATUSES.lookup (stripQuotes (rsplitDot c.2))).getD "") := by
  unfold deriveName
  cases hSt : STATUSES.lookup c.1 <;>
    cases hSub : SUB_STATUSES.lookup (stripQuotes (rsplitDot c.2)) <;>
      simp [hSt, hSub]

/-- A combination column is named exactly `Posted` only when its status
half is the status `Posted`. -/
theorem deriveName_posted {c : String × String} (h : deriveName c = "Posted") :
    c.1 = "Posted" := by
  rw [deriveName_eq] at h
  cases hSub : SUB_STATUSES.lookup (stripQuotes (rsplitDot c.2)) with
  | some w =>
    exfalso
    have hw : (Char.ofNat 32) ∈ w.data :=
      sub_status_value_has_space _ (mem_of_lookup_eq_some hSub)
    rw [hSub] at h
    simp only [Option.getD_some] at h
    have hd := congrArg String.data h
    rw [String.data_append] at hd
    exact posted_no_space (hd ▸ List.mem_append_right _ hw)
  | none =>
    rw [hSub] at h
    simp only [Option.getD_none, String.append_empty] at h
    cases hSt : STATUSES.lookup c.1 with
    | some v =>
      rw [hSt] at h
      simp only [Option.getD_some] at h
      subst h
      exact status_value_posted (c.1, "Posted") (mem_of_lookup_eq_some hSt) rfl
    | none =>
      rw [hSt] at h
      simp at h

/-- Inversion of a successful debtor aggregation: the corpus has a posted
row, and the output is the per-participant posted-count table. -/
theorem debtor_ok {corpus : List Row} {deb : List (String × Nat)}
    (h : extract_debitor_details corpus = .ok deb) :
    "Posted" ∈ debtorStatuses corpus ∧
      deb = (debtorParts corpus).map (fun p => (p, debPostedCount corpus p)) := by
  unfold extract_debitor_details at h
  split at h
  · refine ⟨by assumption, ?_⟩
    injection h with h
    exact h.symm
  · cases h

/-- Inversion of a successful creditor aggregation: exactly one column is
named `Posted`, and the output is the per-participant table with that
column popped. -/
theorem creditor_ok {corpus : List Row} {ct : CredTable}
    (h : extract_creditor_details corpus = .ok ct) :
    (creditorNames corpus).count "Posted" = 1 ∧
      ct = { colNames := (creditorNames corpus).eraseIdx (postedIdx corpus),
             rows := (creditorParts corpus).map (mkCredRow corpus) } := by
  unfold extract_creditor_details at h
  split at h
  · cases h
  · split at h
    · cases h
    · refine ⟨by omega, ?_⟩
      injection h with h
      exact h.symm

/-- The popped column index is valid when the `Posted` column exists. -/
theorem postedIdx_lt {corpus : List Row}
    (h : (creditorNames corpus).count "Posted" = 1) :
    postedIdx corpus < (creditorCombos corpus).length := by
  have hm : "Posted" ∈ creditorNames corpus := by
    have : 0 < (creditorNames corpus).count "Posted" := by omega
    exact List.count_pos_iff.mp this
  have := List.indexOf_lt_length.mpr hm
  simpa [postedIdx, creditorNames] using this

/-- A corpus status value occurs in the corpus. -/
theorem mem_debtorStatuses {corpus : List Row} {st : String} :
    st ∈ debtorStatuses corpus ↔ ∃ r ∈ corpus, r.TR_STATUS_NAME = st := by
  unfold debtorStatuses
  rw [mem_sortedKeys]
  simp [eq_comm]

/-- A creditor participant of the pivot occurs in the corpus. -/
theorem mem_creditorParts {corpus : List Row} {p : String} :
    p ∈ creditorParts corpus ↔ ∃ r ∈ corpus, r.CR_PARTIC_NAME = p := by
  unfold creditorParts
  rw [mem_sortedKeys]
  simp [eq_comm]

/-- A debtor participant of the pivot occurs in the corpus. -/
theorem mem_debtorParts {corpus : List Row} {p : String} :
    p ∈ debtorParts corpus ↔ ∃ r ∈ corpus, r.DB_PARTIC_NAME = p := by
  unfold debtorParts
  rw [mem_sortedKeys]
  simp [eq_comm]

/-- A combination column of the creditor pivot occurs in the corpus. -/
theorem mem_creditorCombos {corpus : List Row} {c : String × String} :
    c ∈ creditorCombos corpus ↔
      ∃ r ∈ corpus, r.TR_STATUS_NAME = c.1 ∧ r.REJECT_MOTIVE_DESCRITION = c.2 := by
  unfold creditorCombos
  rw [mem_sortLe, List.mem_dedup]
  constructor
  · intro h
    rcases List.mem_map.mp h with ⟨r, hr, hc⟩
    exact ⟨r, hr, by rw [← hc], by rw [← hc]⟩
  · intro ⟨r, hr, h1, h2⟩
    refine List.mem_map.mpr ⟨r, hr, ?_⟩
    rw [h1, h2]

/-- A combination count is positive when the corpus has a matching row. -/
theorem comboCount_pos {corpus : List Row} {r : Row} (hr : r ∈ corpus) :
    1 ≤ comboCount corpus r.CR_PARTIC_NAME (r.TR_STATUS_NAME, r.REJECT_MOTIVE_DESCRITION) := by
  unfold comboCount
  have : r ∈ corpus.filter (fun x =>
      x.CR_PARTIC_NAME = r.CR_PARTIC_NAME ∧ x.TR_STATUS_NAME = r.TR_STATUS_NAME ∧
        x.REJECT_MOTIVE_DESCRITION = r.REJECT_MOTIVE_DESCRITION) := by
    rw [List.mem_filter]
    exact ⟨hr, by simp⟩
  calc 1 ≤ 1 := le_refl 1
    _ ≤ _ := List.length_pos.mpr (List.ne_nil_of_mem this)

/-- A posted-row count is positive when the corpus has a posted row of
that debtor. -/
theorem debPostedCount_pos {corpus : List Row} {r : Row} (hr : r ∈ corpus)
    (hst : r.TR_STATUS_NAME = "Posted") :
    1 ≤ debPostedCount corpus r.DB_PARTIC_NAME := by
  unfold debPostedCount
  have : r ∈ corpus.filter (fun x =>
      x.DB_PARTIC_NAME = r.DB_PARTIC_NAME ∧ x.TR_STATUS_NAME = "Posted") := by
    rw [List.mem_filter]
    exact ⟨hr, by simp [hst]⟩
  exact List.length_pos.mpr (List.ne_nil_of_mem this)

/-- Grand total of a creditor row is the sum over every combination
column, popped column included. -/
theorem mkCredRow_grandTotal {corpus : List Row} (p : String)
    (hi : postedIdx corpus < (creditorCombos corpus).length) :
    (mkCredRow corpus p).grandTotal =
      ((creditorCombos corpus).map (comboCount corpus p)).sum := by
  simp only [mkCredRow]
  exact getD_add_eraseIdx_sum _ _ (by simpa using hi)

/-- Counts of a creditor row are the combination counts of the remaining
columns, in column order. -/
theorem mkCredRow_counts (corpus : List Row) (p : String) :
    (mkCredRow corpus p).counts =
      ((creditorCombos corpus).eraseIdx (postedIdx corpus)).map (comboCount corpus p) := by
  simp only [mkCredRow]
  exact eraseIdx_map _ _ _

/-- The padded fractional rendering always has two characters. -/
theorem pad2_length : ∀ fp, fp < 100 → (pad2 fp).length = 2 := by decide

/-- C7: every combination column of the creditor pivot is renamed to the
status dictionary label of its status half (or the empty string when
unmapped) followed by the sub-status dictionary label of its reject
motive half trimmed of the segment after the last dot and of apostrophes
(or the empty string when unmapped), status fragment first. -/
theorem creditor_column_naming (corpus : List Row) :
    creditorNames corpus =
      (creditorCombos corpus).map (fun c => specColumnName c.1 c.2) := by
  unfold creditorNames
  refine List.map_congr_left (fun c _ => ?_)
  rw [deriveName_eq]
  rfl

/-- C1: the debtor aggregate has exactly one row per distinct debtor
participant of the corpus, and its Sent Posted cell is the exact number
of corpus rows of that debtor whose status is Posted. -/
theorem debtor_aggregate_unique_posted (corpus : List Row) (deb : List (String × Nat))
    (h : extract_debitor_details corpus = .ok deb) :
    (deb.map Prod.fst).Nodup ∧
      (∀ p, p ∈ deb.map Prod.fst ↔ p ∈ corpus.map (fun r => r.DB_PARTIC_NAME)) ∧
      (∀ pr ∈ deb, pr.2 = debPostedCount corpus pr.1) := by
  obtain ⟨hpost, hdeb⟩ := debtor_ok h
  subst hdeb
  have hfst :
      ((debtorParts corpus).map (fun p => (p, debPostedCount corpus p))).map Prod.fst =
        debtorParts corpus := by
    simp [List.map_map, Function.comp_def]
  refine ⟨?_, ?_, ?_⟩
  · rw [hfst]
    exact nodup_sortedKeys _
  · intro p
    rw [hfst]
    unfold debtorParts
    exact mem_sortedKeys
  · intro pr hpr
    rcases List.mem_map.mp hpr with ⟨p, hp, rfl⟩
    rfl

/-- C2: in every creditor aggregate row the Grand Total cell is the
row-wise sum of all status-derived count columns, the popped Posted
count included, with exact integer equality. -/
theorem creditor_grand_total_rowsum (corpus : List Row) (ct : CredTable)
    (h : extract_creditor_details corpus = .ok ct) :
    ∀ row ∈ ct.rows, row.grandTotal = row.received + row.counts.sum := by
  obtain ⟨hc, hct⟩ := creditor_ok h
  subst hct
  intro row hrow
  rcases List.mem_map.mp hrow with ⟨p, hp, rfl⟩
  rfl

/-- C9: every creditor aggregate row has a Grand Total of at least one,
so the Success division never divides by zero. -/
theorem creditor_grand_total_positive (corpus : List Row) (ct : CredTable)
    (h : extract_creditor_details corpus = .ok ct) :
    ∀ row ∈ ct.rows, 1 ≤ row.grandTotal := by
  obtain ⟨hc, hct⟩ := creditor_ok h
  subst hct
  intro row hrow
  rcases List.mem_map.mp hrow with ⟨p, hp, rfl⟩
  have hi := postedIdx_lt hc
  rw [mkCredRow_grandTotal p hi]
  rcases mem_creditorParts.mp hp with ⟨r, hr, hcr⟩
  have hcomb : (r.TR_STATUS_NAME, r.REJECT_MOTIVE_DESCRITION) ∈ creditorCombos corpus :=
    mem_creditorCombos.mpr ⟨r, hr, rfl, rfl⟩
  have hmem := List.mem_map_of_mem (comboCount corpus p) hcomb
  have hle := List.le_sum_of_mem hmem
  have hpos : 1 ≤ comboCount corpus p (r.TR_STATUS_NAME, r.REJECT_MOTIVE_DESCRITION) := by
    rw [← hcr]
    exact comboCount_pos hr
  omega

/-- C3: every creditor aggregate row with non-zero Grand Total has a
Success cell that renders the binary64 computation of Posted over Grand
Total times one hundred with exactly two decimal places and a trailing
percent sign. -/
theorem creditor_success_format (corpus : List Row) (ct : CredTable)
    (h : extract_creditor_details corpus = .ok ct) :
    ∀ row ∈ ct.rows, row.grandTotal ≠ 0 →
      row.success = fmt2 (pctHundredths row.received row.grandTotal) ++ "%" ∧
      ∃ ip fp, fp < 100 ∧ (pad2 fp).length = 2 ∧
        row.success = Nat.repr ip ++ "." ++ pad2 fp ++ "%" ∧
        100 * ip + fp = pctHundredths row.received row.grandTotal := by
  obtain ⟨hc, hct⟩ := creditor_ok h
  subst hct
  intro row hrow hgt
  rcases List.mem_map.mp hrow with ⟨p, hp, rfl⟩
  have hsucc : (mkCredRow corpus p).success =
      formatPct (mkCredRow corpus p).received (mkCredRow corpus p).grandTotal := rfl
  have hfmt : (mkCredRow corpus p).success =
      fmt2 (pctHundredths (mkCredRow corpus p).received (mkCredRow corpus p).grandTotal) ++ "%" := by
    rw [hsucc]
    unfold formatPct
    rw [if_neg hgt]
  refine ⟨hfmt, pctHundredths (mkCredRow corpus p).received (mkCredRow corpus p).grandTotal / 100,
    pctHundredths (mkCredRow corpus p).received (mkCredRow corpus p).grandTotal % 100,
    Nat.mod_lt _ (by omega), pad2_length _ (Nat.mod_lt _ (by omega)), ?_, ?_⟩
  · rw [hfmt]
    rfl
  · exact Nat.div_add_mod _ 100

/-- C10: on a non-empty corpus with no posted row, both aggregation
passes fail with the missing-column error for `Posted` instead of
producing aggregates with zero posted counts. -/
theorem missing_posted_errors (corpus : List Row) (h1 : corpus ≠ [])
    (h2 : ∀ r ∈ corpus, r.TR_STATUS_NAME ≠ "Posted") :
    extract_debitor_details corpus = .error (.missingColumn "Posted") ∧
    extract_creditor_details corpus = .error (.missingColumn "Posted") := by
  constructor
  · unfold extract_debitor_details
    rw [if_neg]
    intro hmem
    rcases mem_debtorStatuses.mp hmem with ⟨r, hr, hst⟩
    exact h2 r hr hst
  · have hzero : (creditorNames corpus).count "Posted" = 0 := by
      by_contra hne
      have hmem : "Posted" ∈ creditorNames corpus := List.count_pos_iff.mp (by omega)
      unfold creditorNames at hmem
      rcases List.mem_map.mp hmem with ⟨c, hc, hname⟩
      rcases mem_creditorCombos.mp hc with ⟨r, hr, hst, _⟩
      exact h2 r hr (hst.trans (deriveName_posted hname))
    unfold extract_creditor_details
    rw [if_pos hzero]

/-- C4: no record with an excluded operation code ever reaches the
unified corpus built by `merge_files` from any set of input extracts. -/
theorem corpus_excludes_op_codes (files : List (String × RawTable)) (corpus : List Row)
    (h : merge_files files = .ok corpus) :
    ∀ r ∈ corpus, r.BANK_OP_CODE ≠ "CSDC" ∧ r.BANK_OP_CODE ≠ "PMCT" := by
  induction files generalizing corpus with
  | nil =>
    unfold merge_files at h
    injection h with h
    subst h
    intro r hr
    cases hr
  | cons ft rest ih =>
    rcases ft with ⟨fname, t⟩
    unfold merge_files at h
    cases hf : filter_file fname t with
    | error e => rw [hf] at h; cases h
    | ok rows =>
      rw [hf] at h
      cases hm : merge_files rest with
      | error e => rw [hm] at h; cases h
      | ok others =>
        rw [hm] at h
        injection h with h
        subst h
        intro r hr
        rcases List.mem_append.mp hr with hr | hr
        · simp only [filter_file] at hf
          split at hf
          · injection hf with hf
            subst hf
            have hpred := (List.mem_filter.mp hr).2
            simpa using hpred
          · cases hf
        · exact ih others hm r hr

/-- C8 counterexample: on an extract lacking `BANK_OP_CODE`, the Record
Filter fails with an error carrying only the missing column labels; the
failure is byte-for-byte identical for two different file names, so the
error cannot name the file. -/
theorem schema_error_counterexample :
    filter_file "reportA.xlsx" badTable = .error (.missingColumns ["BANK_OP_CODE"]) ∧
    filter_file "reportB.xlsx" badTable = filter_file "reportA.xlsx" badTable := by
  constructor
  · rfl
  · rfl

/-- C8 amended: on an extract lacking required columns, the Record Filter
fails with the KeyError listing exactly the missing column labels (but
not the file name), and any run whose discovered files include that
extract produces no corpus at all. -/
theorem schema_error_surfaced (fname : String) (t : RawTable)
    (hm : missingOf t ≠ []) :
    filter_file fname t = .error (.missingColumns (missingOf t)) ∧
    ∀ files, (fname, t) ∈ files → ∀ corpus, merge_files files ≠ .ok corpus := by
  have hfe : filter_file fname t = .error (.missingColumns (missingOf t)) := by
    unfold filter_file
    rw [if_neg]
    simpa [List.isEmpty_iff] using hm
  refine ⟨hfe, ?_⟩
  intro files
  induction files with
  | nil => intro hmem; cases hmem
  | cons ft rest ih =>
    intro hmem corpus hok
    rcases ft with ⟨g, u⟩
    rcases List.mem_cons.mp hmem with heq | hmem
    · injection heq with h1 h2
      subst h1
      subst h2
      unfold merge_files at hok
      rw [hfe] at hok
      cases hok
    · unfold merge_files at hok
      cases hf : filter_file g u with
      | error e => rw [hf] at hok; cases hok
      | ok rows =>
        rw [hf] at hok
        cases hmr : merge_files rest with
        | error e => rw [hmr] at hok; cases hok
        | ok others => exact ih hmem others hmr

/-- Reconciler total-row Sent Posted cell, before display, is the zero
transform of the column sum over the merged rows. -/
theorem post_total_sent (deb : List (String × Nat)) (ncols : Nat) (cred : List CredRow) :
    (post_processing deb ncols cred).total.sent =
      opt0 ((((mergeKeys deb cred).map (mkMerged deb ncols cred)).map (fun m => m.sent)).sum) := rfl

/-- Reconciler total-row Received Posted cell. -/
theorem post_total_received (deb : List (String × Nat)) (ncols : Nat) (cred : List CredRow) :
    (post_processing deb ncols cred).total.received =
      opt0 ((((mergeKeys deb cred).map (mkMerged deb ncols cred)).map (fun m => m.received)).sum) := rfl

/-- Reconciler total-row Grand Total cell. -/
theorem post_total_grandTotal (deb : List (String × Nat)) (ncols : Nat) (cred : List CredRow) :
    (post_processing deb ncols cred).total.grandTotal =
      opt0 ((((mergeKeys deb cred).map (mkMerged deb ncols cred)).map (fun m => m.grandTotal)).sum) := rfl

/-- Reconciler total-row count columns. -/
theorem post_total_counts (deb : List (String × Nat)) (ncols : Nat) (cred : List CredRow) :
    (post_processing deb ncols cred).total.counts =
      ((List.range ncols).map (fun j =>
        (((mergeKeys deb cred).map (mkMerged deb ncols cred)).map
          (fun m => m.counts.getD j 0)).sum)).map opt0 := rfl

/-- Reconciler total-row Success cell. -/
theorem post_total_success (deb : List (String × Nat)) (ncols : Nat) (cred : List CredRow) :
    (post_processing deb ncols cred).total.success =
      some (nanmeanFmt (((mergeKeys deb cred).map (mkMerged deb ncols cred)).map
        (fun m => m.success.bind parsePct) ++ [none])) := rfl

/-- Reconciler participant rows are the displayed merged rows. -/
theorem post_rows (deb : List (String × Nat)) (ncols : Nat) (cred : List CredRow) :
    (post_processing deb ncols cred).rows =
      ((mergeKeys deb cred).map (mkMerged deb ncols cred)).map displayRow := rfl

/-- Displayed Sent Posted cells sum to the merged column sum. -/
theorem display_sum_sent (l : List MRow) :
    ((l.map displayRow).map (fun r => r.sent.getD 0)).sum = (l.map (fun m => m.sent)).sum := by
  rw [List.map_map]
  have hfun : ((fun r : ReportRow => r.sent.getD 0) ∘ displayRow) = fun m : MRow => m.sent := by
    funext m
    simp [displayRow]
  rw [hfun]

/-- Displayed Received Posted cells sum to the merged column sum. -/
theorem display_sum_received (l : List MRow) :
    ((l.map displayRow).map (fun r => r.received.getD 0)).sum =
      (l.map (fun m => m.received)).sum := by
  rw [List.map_map]
  have hfun : ((fun r : ReportRow => r.received.getD 0) ∘ displayRow) =
      fun m : MRow => m.received := by
    funext m
    simp [displayRow]
  rw [hfun]

/-- Displayed Grand Total cells sum to the merged column sum. -/
theorem display_sum_grandTotal (l : List MRow) :
    ((l.map displayRow).map (fun r => r.grandTotal.getD 0)).sum =
      (l.map (fun m => m.grandTotal)).sum := by
  rw [List.map_map]
  have hfun : ((fun r : ReportRow => r.grandTotal.getD 0) ∘ displayRow) =
      fun m : MRow => m.grandTotal := by
    funext m
    simp [displayRow]
  rw [hfun]

/-- Displayed count-column cells sum to the merged column sum. -/
theorem display_sum_counts (l : List MRow) (j : Nat) :
    ((l.map displayRow).map (fun r => (r.counts.getD j none).getD 0)).sum =
      (l.map (fun m => m.counts.getD j 0)).sum := by
  rw [List.map_map]
  have hfun : ((fun r : ReportRow => (r.counts.getD j none).getD 0) ∘ displayRow) =
      fun m : MRow => m.counts.getD j 0 := by
    funext m
    simp only [Function.comp_apply, displayRow]
    exact getD_map_opt0 _ _
  rw [hfun]

/-- Reading a mapped list at a valid index with a default. -/
theorem getD_map_getElem {α : Type} (l : List α) (f : α → Nat) (j : Nat)
    (h : j < l.length) : (l.map f).getD j 0 = f (l.get ⟨j, h⟩) := by
  rw [List.getD_eq_getElem _ _ (by simpa using h)]
  simp

/-- Debtor-side participants are merge keys. -/
theorem mem_mergeKeys_left {deb : List (String × Nat)} {cred : List CredRow} {p : String}
    (hp : p ∈ deb.map Prod.fst) : p ∈ mergeKeys deb cred := by
  unfold mergeKeys
  rw [mem_sortedKeys]
  exact List.mem_append_left _ hp

/-- Creditor-side participants are merge keys. -/
theorem mem_mergeKeys_right {deb : List (String × Nat)} {cred : List CredRow} {p : String}
    (hp : p ∈ cred.map (fun c => c.participant)) : p ∈ mergeKeys deb cred := by
  unfold mergeKeys
  rw [mem_sortedKeys]
  exact List.mem_append_right _ hp

/-- Inversion of a successful pipeline run. -/
theorem pipeline_ok {corpus : List Row} {rep : Report} (h : pipeline corpus = .ok rep) :
    ∃ deb ct, extract_debitor_details corpus = .ok deb ∧
      extract_creditor_details corpus = .ok ct ∧
      rep = post_processing deb ct.colNames.length ct.rows := by
  unfold pipeline at h
  cases hd : extract_debitor_details corpus with
  | error e => rw [hd] at h; cases h
  | ok deb =>
    rw [hd] at h
    cases hc : extract_creditor_details corpus with
    | error e => rw [hc] at h; cases h
    | ok ct =>
      rw [hc] at h
      injection h with h
      exact ⟨deb, ct, rfl, rfl, h.symm⟩

/-- C6: the GRAND TOTAL Success cell is the unweighted arithmetic mean of
the per-participant Success values of the report, each parsed by removing
the percent sign and converting to a float (cells with no value, and the
NaN Success cell of the appended total row itself, are skipped by the
nanmean), formatted as a two-decimal percentage string — not a weighted
recomputation from the summed counts. -/
theorem grand_total_success_mean (corpus : List Row) (rep : Report)
    (h : pipeline corpus = .ok rep) :
    rep.total.success =
      some (nanmeanFmt (rep.rows.map (fun r => r.success.bind parsePct) ++ [none])) := by
  obtain ⟨deb, ct, hd, hc, hrep⟩ := pipeline_ok h
  subst hrep
  simp only [post_total_success, post_rows, List.map_map]
  congr 3

/-- Participant field of a creditor aggregate row. -/
theorem mkCredRow_participant (corpus : List Row) (p : String) :
    (mkCredRow corpus p).participant = p := rfl

/-- Reading the displayed total count columns at a valid index. -/
theorem getD_map_range (F : Nat → Nat) (n j : Nat) (h : j < n) :
    (((List.range n).map F).map opt0).getD j none = opt0 (F j) := by
  rw [List.getD_eq_getElem _ _ (by simpa using h)]
  simp

/-- On a corpus whose pipeline run succeeds, every numeric column of the
merged table has a positive column sum: the posted row witnesses the
debtor side, and each creditor pivot column is witnessed by a row that
realizes its combination. -/
theorem merged_sums_pos (corpus : List Row) (ncols : Nat)
    (hpostMem : "Posted" ∈ debtorStatuses corpus)
    (hcnt : (creditorNames corpus).count "Posted" = 1) :
    let D := (debtorParts corpus).map (fun p => (p, debPostedCount corpus p))
    let C := (creditorParts corpus).map (mkCredRow corpus)
    let merged := (mergeKeys D C).map (mkMerged D ncols C)
    1 ≤ (merged.map (fun m => m.sent)).sum ∧
    1 ≤ (merged.map (fun m => m.received)).sum ∧
    1 ≤ (merged.map (fun m => m.grandTotal)).sum ∧
    ∀ j, j < ((creditorCombos corpus).eraseIdx (postedIdx corpus)).length →
      1 ≤ (merged.map (fun m => m.counts.getD j 0)).sum := by
  intro D C merged
  have hi : postedIdx corpus < (creditorCombos corpus).length := postedIdx_lt hcnt
  have hDfst : D.map Prod.fst = debtorParts corpus := by
    show ((debtorParts corpus).map _).map Prod.fst = _
    simp [List.map_map, Function.comp_def]
  have hCpart : C.map (fun c => c.participant) = creditorParts corpus := by
    show ((creditorParts corpus).map (mkCredRow corpus)).map _ = _
    simp [List.map_map, Function.comp_def, mkCredRow_participant]
  rcases mem_debtorStatuses.mp hpostMem with ⟨r0, hr0, hst0⟩
  have hp0 : r0.DB_PARTIC_NAME ∈ debtorParts corpus := mem_debtorParts.mpr ⟨r0, hr0, rfl⟩
  have hp0k : r0.DB_PARTIC_NAME ∈ mergeKeys D C :=
    mem_mergeKeys_left (by rw [hDfst]; exact hp0)
  have hsent0 : (mkMerged D ncols C r0.DB_PARTIC_NAME).sent =
      debPostedCount corpus r0.DB_PARTIC_NAME := by
    rw [mkMerged_sent]
    show (((debtorParts corpus).map (fun p => (p, debPostedCount corpus p))).lookup
      r0.DB_PARTIC_NAME).getD 0 = _
    rw [lookup_map_self _ hp0]
    rfl
  have hs1 : 1 ≤ (merged.map (fun m => m.sent)).sum := by
    have hmem1 : mkMerged D ncols C r0.DB_PARTIC_NAME ∈ merged := List.mem_map_of_mem _ hp0k
    have hle := List.le_sum_of_mem (List.mem_map_of_mem (fun m : MRow => m.sent) hmem1)
    have hpos := debPostedCount_pos hr0 hst0
    simp only [hsent0] at hle
    omega
  have hgetmem : (creditorCombos corpus).get ⟨postedIdx corpus, hi⟩ ∈ creditorCombos corpus :=
    List.get_mem _ _ hi
  rcases mem_creditorCombos.mp hgetmem with ⟨rs, hrs, hsts, hmos⟩
  have hps : rs.CR_PARTIC_NAME ∈ creditorParts corpus := mem_creditorParts.mpr ⟨rs, hrs, rfl⟩
  have hpsk : rs.CR_PARTIC_NAME ∈ mergeKeys D C :=
    mem_mergeKeys_right (by rw [hCpart]; exact hps)
  have hmrow := mkMerged_of_credPart D ncols corpus hps
  have hpair : (rs.TR_STATUS_NAME, rs.REJECT_MOTIVE_DESCRITION) =
      (creditorCombos corpus).get ⟨postedIdx corpus, hi⟩ := Prod.ext hsts hmos
  have hrecv : (mkCredRow corpus rs.CR_PARTIC_NAME).received =
      comboCount corpus rs.CR_PARTIC_NAME
        ((creditorCombos corpus).get ⟨postedIdx corpus, hi⟩) := by
    simp only [mkCredRow]
    exact getD_map_getElem _ _ _ hi
  have hrpos : 1 ≤ (mkCredRow corpus rs.CR_PARTIC_NAME).received := by
    rw [hrecv, ← hpair]
    exact comboCount_pos hrs
  have hmem1 : mkMerged D ncols C rs.CR_PARTIC_NAME ∈ merged := List.mem_map_of_mem _ hpsk
  have hr1 : 1 ≤ (merged.map (fun m => m.received)).sum := by
    have hle := List.le_sum_of_mem (List.mem_map_of_mem (fun m : MRow => m.received) hmem1)
    have heq : (mkMerged D ncols C rs.CR_PARTIC_NAME).received =
        (mkCredRow corpus rs.CR_PARTIC_NAME).received := by rw [hmrow]
    simp only [heq] at hle
    omega
  have hg1 : 1 ≤ (merged.map (fun m => m.grandTotal)).sum := by
    have hle := List.le_sum_of_mem (List.mem_map_of_mem (fun m : MRow => m.grandTotal) hmem1)
    have heq : (mkMerged D ncols C rs.CR_PARTIC_NAME).grandTotal =
        (mkCredRow corpus rs.CR_PARTIC_NAME).grandTotal := by rw [hmrow]
    have hge : (mkCredRow corpus rs.CR_PARTIC_NAME).received ≤
        (mkCredRow corpus rs.CR_PARTIC_NAME).grandTotal := by
      simp only [mkCredRow]
      exact Nat.le_add_right _ _
    simp only [heq] at hle
    omega
  refine ⟨hs1, hr1, hg1, ?_⟩
  intro j hj
  have hgm : ((creditorCombos corpus).eraseIdx (postedIdx corpus)).get ⟨j, hj⟩ ∈
      creditorCombos corpus :=
    List.eraseIdx_subset _ _ (List.get_mem _ _ hj)
  rcases mem_creditorCombos.mp hgm with ⟨rj, hrj, hstj, hmoj⟩
  have hpj : rj.CR_PARTIC_NAME ∈ creditorParts corpus := mem_creditorParts.mpr ⟨rj, hrj, rfl⟩
  have hpjk : rj.CR_PARTIC_NAME ∈ mergeKeys D C :=
    mem_mergeKeys_right (by rw [hCpart]; exact hpj)
  have hmrowj := mkMerged_of_credPart D ncols corpus hpj
  have hpairj : (rj.TR_STATUS_NAME, rj.REJECT_MOTIVE_DESCRITION) =
      ((creditorCombos corpus).eraseIdx (postedIdx corpus)).get ⟨j, hj⟩ :=
    Prod.ext hstj hmoj
  have hcj : (mkCredRow corpus rj.CR_PARTIC_NAME).counts.getD j 0 =
      comboCount corpus rj.CR_PARTIC_NAME
        (((creditorCombos corpus).eraseIdx (postedIdx corpus)).get ⟨j, hj⟩) := by
    rw [mkCredRow_counts]
    exact getD_map_getElem _ _ _ hj
  have hcpos : 1 ≤ (mkCredRow corpus rj.CR_PARTIC_NAME).counts.getD j 0 := by
    rw [hcj, ← hpairj]
    exact comboCount_pos hrj
  have hmemj : mkMerged D ncols C rj.CR_PARTIC_NAME ∈ merged := List.mem_map_of_mem _ hpjk
  have hle := List.le_sum_of_mem
    (List.mem_map_of_mem (fun m : MRow => m.counts.getD j 0) hmemj)
  have heqj : (mkMerged D ncols C rj.CR_PARTIC_NAME).counts =
      (mkCredRow corpus rj.CR_PARTIC_NAME).counts := by rw [hmrowj]
  simp only [heqj] at hle
  omega

/-- C5: in the reconciled report of a successful pipeline run, every
numeric column of the GRAND TOTAL row equals the column-wise sum of that
column over all participant rows, the GRAND TOTAL row itself excluded. -/
theorem grand_total_row_sums (corpus : List Row) (rep : Report)
    (h : pipeline corpus = .ok rep) :
    rep.total.sent = some ((rep.rows.map (fun r => r.sent.getD 0)).sum) ∧
    rep.total.received = some ((rep.rows.map (fun r => r.received.getD 0)).sum) ∧
    rep.total.grandTotal = some ((rep.rows.map (fun r => r.grandTotal.getD 0)).sum) ∧
    ∀ j, j < rep.total.counts.length →
      rep.total.counts.getD j none =
        some ((rep.rows.map (fun r => (r.counts.getD j none).getD 0)).sum) := by
  obtain ⟨deb, ct, hd, hcc, hrep⟩ := pipeline_ok h
  obtain ⟨hpostMem, hdeb⟩ := debtor_ok hd
  obtain ⟨hcnt, hct⟩ := creditor_ok hcc
  subst hrep
  subst hdeb
  subst hct
  have hNeq : ((creditorNames corpus).eraseIdx (postedIdx corpus)).length =
      ((creditorCombos corpus).eraseIdx (postedIdx corpus)).length := by
    unfold creditorNames
    rw [eraseIdx_map]
    simp
  obtain ⟨hs1, hr1, hg1, hcols⟩ :=
    merged_sums_pos corpus ((creditorNames corpus).eraseIdx (postedIdx corpus)).length
      hpostMem hcnt
  refine ⟨?_, ?_, ?_, ?_⟩
  · rw [post_total_sent, post_rows, display_sum_sent]
    exact opt0_pos hs1
  · rw [post_total_received, post_rows, display_sum_received]
    exact opt0_pos hr1
  · rw [post_total_grandTotal, post_rows, display_sum_grandTotal]
    exact opt0_pos hg1
  · intro j hj
    rw [post_total_counts] at hj
    have hjN : j < ((creditorNames corpus).eraseIdx (postedIdx corpus)).length := by
      simpa using hj
    rw [post_total_counts, getD_map_range _ _ _ hjN, post_rows, display_sum_counts]
    exact opt0_pos (hcols j (hNeq ▸ hjN))

/-- Witness for C1 on the concrete corpus. -/
theorem debtor_aggregate_unique_posted_witness :
    (wDeb.map Prod.fst).Nodup ∧
      (∀ p, p ∈ wDeb.map Prod.fst ↔ p ∈ wCorpus.map (fun r => r.DB_PARTIC_NAME)) ∧
      (∀ pr ∈ wDeb, pr.2 = debPostedCount wCorpus pr.1) :=
  debtor_aggregate_unique_posted wCorpus wDeb rfl

/-- Witness for C2 on the concrete creditor row. -/
theorem creditor_grand_total_rowsum_witness :
    wCredRow.grandTotal = wCredRow.received + wCredRow.counts.sum :=
  creditor_grand_total_rowsum wCorpus wCred rfl wCredRow (by decide)

/-- Witness for C3 on the concrete creditor row. -/
theorem creditor_success_format_witness :
    wCredRow.success = fmt2 (pctHundredths wCredRow.received wCredRow.grandTotal) ++ "%" ∧
    ∃ ip fp, fp < 100 ∧ (pad2 fp).length = 2 ∧
      wCredRow.success = Nat.repr ip ++ "." ++ pad2 fp ++ "%" ∧
      100 * ip + fp = pctHundredths wCredRow.received wCredRow.grandTotal :=
  creditor_success_format wCorpus wCred rfl wCredRow (by decide) (by decide)

/-- Witness for C4 on the surviving row of the concrete file list with a
`CSDC` row. -/
theorem corpus_excludes_op_codes_witness :
    wRowPosted.BANK_OP_CODE ≠ "CSDC" ∧ wRowPosted.BANK_OP_CODE ≠ "PMCT" :=
  corpus_excludes_op_codes wFiles wMerged rfl wRowPosted (by decide)

/-- Witness for C5 on the concrete corpus. -/
theorem grand_total_row_sums_witness :
    wReport.total.sent = some ((wReport.rows.map (fun r => r.sent.getD 0)).sum) ∧
    wReport.total.received = some ((wReport.rows.map (fun r => r.received.getD 0)).sum) ∧
    wReport.total.grandTotal = some ((wReport.rows.map (fun r => r.grandTotal.getD 0)).sum) ∧
    ∀ j, j < wReport.total.counts.length →
      wReport.total.counts.getD j none =
        some ((wReport.rows.map (fun r => (r.counts.getD j none).getD 0)).sum) :=
  grand_total_row_sums wCorpus wReport rfl

/-- Witness for C6 on the concrete corpus. -/
theorem grand_total_success_mean_witness :
    wReport.total.success =
      some (nanmeanFmt (wReport.rows.map (fun r => r.success.bind parsePct) ++ [none])) :=
  grand_total_success_mean wCorpus wReport rfl

/-- Witness for the amended C8 on the concrete bad extract. -/
theorem schema_error_surfaced_witness :
    filter_file "extract1.xlsx" badTable = .error (.missingColumns (missingOf badTable)) ∧
    ∀ files, ("extract1.xlsx", badTable) ∈ files → ∀ corpus, merge_files files ≠ .ok corpus :=
  schema_error_surfaced "extract1.xlsx" badTable (by decide)

/-- Witness for C9 on the concrete creditor row. -/
theorem creditor_grand_total_positive_witness :
    1 ≤ wCredRow.grandTotal :=
  creditor_grand_total_positive wCorpus wCred rfl wCredRow (by decide)

/-- Witness for C10 on a concrete non-empty corpus with no posted row. -/
theorem missing_posted_errors_witness :
    extract_debitor_details [wRowNoPost] = .error (.missingColumn "Posted") ∧
    extract_creditor_details [wRowNoPost] = .error (.missingColumn "Posted") :=
  missing_posted_errors [wRowNoPost] (by decide) (by decide)

